import Mathlib

/-!
Verification development for the standard-library core of the selene linter.

The embedded code comes from two source files:
  * `luacheck2-lib/src/standard_library.rs` — the data model (`Field`,
    `StandardLibrary`, `Argument`, `ArgumentType`, `Required`, `Writable`),
    the inheritance merge (`StandardLibrary::inflate`), the dotted-path
    lookup (`StandardLibrary::find_global`), the field-kind interpretation
    performed by `Field::deserialize`, and the `ArgumentTypeVisitor`.
  * `selene-lib/src/possible_std.rs` — the suggestion engine
    (`possible_standard_libraries` and `possible_standard_library_notes`).

Rust `HashMap<String, Field>` values are embedded as association lists
(`List (String × Field)`) together with map operations (`mfind`, `merase`,
`minsert`) that realize the `get`/`remove`/`insert` semantics of a hash map.
A hash map never holds two bindings for one key, so general theorems carry a
`Nodup` hypothesis on the key list where the per-key semantics needs it.
`HashMap::drain` iterates in an unspecified order; the embedding iterates the
association list front to back, and the per-key theorems proved below are
stated so that they characterize the result key by key, where the order of
processing distinct keys is immaterial.

Process aborts (Rust `panic!`) are embedded as an explicit `Res.panic`
outcome, and the unbounded recursion that `inflate` performs through
`from_name` is embedded with an explicit fuel parameter, `Res.outOfFuel`
marking a computation that did not complete within any given fuel bound.

The bundled TOML descriptions (`lua51.toml`, `lua52.toml`), the
`text::english_list` / `text::plural` helpers and the roblox feature data
(`StandardLibrary::all_default_standard_libraries`,
`StandardLibrary::roblox_base`) are not part of the excerpt; where they are
needed they are modelled from the specification, and each such definition is
marked `Modelled from the spec:` in its doc comment.
-/

set_option linter.dupNamespace false

namespace Selene

/-- Enum `Writable` from `standard_library.rs`. -/
inductive Writable where
  | NewFields
  | Overridden
  | Full

/-- Enum `ArgumentType` from `standard_library.rs`. -/
inductive ArgumentType where
  | Any
  | Bool
  | Constant (options : List String)
  | Display (display : String)
  | Function
  | Nil
  | Number
  | String
  | Table
  | Vararg

/-- Enum `Required` from `standard_library.rs`. -/
inductive Required where
  | NotRequired
  | Required (message : Option String)

/-- Struct `Argument` from `standard_library.rs`. -/
structure Argument where
  required : Required
  argument_type : ArgumentType

/-- Enum `Field` from `standard_library.rs`. `Table` holds
`HashMap<String, Field>`, embedded as an association list. -/
inductive Field where
  | Function (arguments : List Argument) (method : Bool)
  | Property (writable : Option Writable)
  | Table (children : List (String × Field))
  | Removed

/-- The embedding of `HashMap<String, Field>`. -/
abbrev FieldMap := List (String × Field)

/-- `HashMap::get`: the value bound to `key`, if any. -/
def mfind : FieldMap → String → Option Field
  | [], _ => none
  | (k, v) :: rest, key => if k = key then some v else mfind rest key

/-- `HashMap::remove`: drop every binding of `key`. -/
def merase : FieldMap → String → FieldMap
  | [], _ => []
  | (k, v) :: rest, key => if k = key then merase rest key else (k, v) :: merase rest key

/-- `HashMap::insert`: bind `key` to `v`, replacing any previous binding. -/
def minsert (m : FieldMap) (key : String) (v : Field) : FieldMap :=
  (key, v) :: merase m key

/-- Struct `StandardLibrary` from `standard_library.rs`: an optional `base`
name and the (flattened) `globals` map. -/
structure StandardLibrary where
  base : Option String
  globals : FieldMap

mutual

/-- The local function `merge` inside `StandardLibrary::inflate`
(`standard_library.rs` lines 70-88): fold the overriding map `other` onto the
seed map `into`, one key at a time. -/
def merge : FieldMap → FieldMap → FieldMap
  | into, [] => into
  | into, (k, v) :: rest => merge (mergeOne into k v) rest

/-- One iteration of the `for (k, v) in other.drain()` loop body of `merge`:
a `Removed` overriding value deletes the key; a `Table` overriding a `Table`
deep-merges the child maps; anything else is inserted, replacing the seed
entry if present. -/
def mergeOne : FieldMap → String → Field → FieldMap
  | into, k, .Removed => merase into k
  | into, k, .Table oc =>
    match mfind into k with
    | some (.Table ic) => minsert into k (.Table (merge ic oc))
    | _ => minsert into k (.Table oc)
  | into, k, v => minsert into k v

end

mutual

/-- Whether the `Removed` sentinel occurs anywhere in a field (at any depth). -/
def fieldHasRemoved : Field → Bool
  | .Removed => true
  | .Table children => mapHasRemoved children
  | _ => false

/-- Whether the `Removed` sentinel occurs anywhere in a field map (at any depth). -/
def mapHasRemoved : FieldMap → Bool
  | [] => false
  | (_, v) :: rest => fieldHasRemoved v || mapHasRemoved rest

end

/-- Modelled from the spec: the registry of raw (not yet inflated) library
descriptions that `StandardLibrary::from_name` parses from bundled TOML text.
The TOML files themselves are not part of the excerpt, so the registry is a
parameter of the embedding, mapping a name to the parsed raw description, or
`none` for an unknown name. -/
def Registry := String → Option StandardLibrary

/-- Outcome of a computation that may abort (Rust `panic!`) or recurse
without bound. `panic missingBase` embeds the `panic!` in
`StandardLibrary::inflate`, whose message names the missing base library;
`outOfFuel` marks a run of the fueled recursion that did not complete within
the given fuel, which embeds unbounded recursion. -/
inductive Res (α : Type) where
  | ok (value : α)
  | panic (missingBase : String)
  | outOfFuel

/-- `StandardLibrary::inflate` (`standard_library.rs` lines 69-99), with the
call `StandardLibrary::from_name(base)` inlined as a registry lookup followed
by the recursive inflation of the raw base description (see `from_name`
below, and the lemma `inflate_succ_eq_from_name` relating the two).
With `base = None` the function does nothing. With `base = Some(b)`, an
unknown `b` panics; otherwise the inflated base globals are cloned as the
seed, the own globals are merged onto the seed, and `base` is retained. -/
def inflate (reg : Registry) : Nat → StandardLibrary → Res StandardLibrary
  | fuel, std =>
    match std.base with
    | none => .ok std
    | some b =>
      match reg b with
      | none => .panic b
      | some rawBase =>
        match fuel with
        | 0 => .outOfFuel
        | fuel + 1 =>
          match inflate reg fuel rawBase with
          | .ok base => .ok ⟨std.base, merge base.globals std.globals⟩
          | .panic m => .panic m
          | .outOfFuel => .outOfFuel

/-- `StandardLibrary::from_name` (`standard_library.rs` lines 16-47): look the
name up among the bundled raw descriptions (`ok none` for an unknown name,
the normal not-found outcome) and inflate the raw description found. -/
def from_name (reg : Registry) (fuel : Nat) (name : String) : Res (Option StandardLibrary) :=
  match reg name with
  | none => .ok none
  | some std =>
    match inflate reg fuel std with
    | .ok s => .ok (some s)
    | .panic m => .panic m
    | .outOfFuel => .outOfFuel

/-- Traversal core of `StandardLibrary::find_global` (`standard_library.rs`
lines 49-67): for every segment except the last the current map must hold a
`Table` at that segment, whose children become the current map; the final
segment is looked up directly. The source asserts that the path is non-empty;
the empty case below is unreachable under that precondition. -/
def findIn : FieldMap → List String → Option Field
  | _, [] => none
  | current, [last] => mfind current last
  | current, name :: rest =>
    match mfind current name with
    | some (.Table children) => findIn children rest
    | _ => none

/-- `StandardLibrary::find_global`: traverse the top-level globals map. -/
def StandardLibrary.find_global (std : StandardLibrary) (names : List String) : Option Field :=
  findIn std.globals names

/-- Struct `FieldSerde` from `standard_library.rs`: the raw shape a field
entry is first deserialized into (`property`, `method`, `removed` markers,
optional `writable`, optional `args`, and all remaining keys as nested
children). -/
structure FieldSerde where
  property : Bool
  method : Bool
  removed : Bool
  writable : Option Writable
  args : Option (List Argument)
  children : FieldMap

/-- The body of `Field::deserialize` (`standard_library.rs` lines 115-151)
after `FieldSerde` has been obtained: decide which `Field` variant the raw
entry denotes, or fail. The source error texts contain an apostrophe-free
equivalent here. -/
def interpretField (field_raw : FieldSerde) : Except String Field :=
  if field_raw.removed then .ok .Removed
  else
    let is_function := field_raw.args.isSome || field_raw.method
    if !field_raw.property && !is_function && field_raw.children.isEmpty then
      .error ("cannot determine what kind of field this is")
    else if field_raw.property && is_function then
      .error ("field is both a property and a function")
    else if field_raw.property then
      .ok (.Property field_raw.writable)
    else if is_function then
      .ok (.Function (field_raw.args.getD []) field_raw.method)
    else
      .ok (.Table field_raw.children)

/-- The raw serde value shapes accepted by `ArgumentTypeVisitor`
(`standard_library.rs` lines 212-260): a string, a sequence of strings, or a
mapping from strings to strings. -/
inductive RawArgumentType where
  | str (value : String)
  | seq (values : List String)
  | map (entries : List (String × String))

/-- `HashMap::get` for the string-to-string map built by `visit_map`. -/
def slookup : List (String × String) → String → Option String
  | [], _ => none
  | (k, v) :: rest, key => if k = key then some v else slookup rest key

/-- `HashMap::insert` for the string-to-string map built by `visit_map`. -/
def sinsert (m : List (String × String)) (key value : String) : List (String × String) :=
  (key, value) :: m.filter (fun p => p.1 ≠ key)

/-- `ArgumentTypeVisitor::visit_map`: insert every entry into a map, then
require a `display` entry. -/
def visit_map (entries : List (String × String)) : Except String ArgumentType :=
  let map := entries.foldl (fun m kv => sinsert m kv.1 kv.2) []
  match slookup map ("display") with
  | some display => .ok (.Display display)
  | none => .error ("map value must have a `display` property")

/-- `ArgumentTypeVisitor::visit_seq`: collect the string elements in order. -/
def visit_seq (values : List String) : Except String ArgumentType :=
  .ok (.Constant values)

/-- `ArgumentTypeVisitor::visit_str`: match the string case-sensitively
against the fixed vocabulary; any other string is an error naming it. The
Rust `match` over string literals is an equality ladder, written here as the
equivalent chain of equality tests. -/
def visit_str (value : String) : Except String ArgumentType :=
  if value = "any" then .ok .Any
  else if value = "bool" then .ok .Bool
  else if value = "function" then .ok .Function
  else if value = "nil" then .ok .Nil
  else if value = "number" then .ok .Number
  else if value = "string" then .ok .String
  else if value = "table" then .ok .Table
  else if value = "..." then .ok .Vararg
  else .error ("unknown type " ++ value)

/-- `ArgumentType::deserialize` through `deserialize_any`: dispatch on the
shape of the raw value. -/
def deserialize_argument_type : RawArgumentType → Except String ArgumentType
  | .str v => visit_str v
  | .seq vs => visit_seq vs
  | .map es => visit_map es

/-- Lexicographic comparison of code-point lists, the order `sort_unstable`
uses on `&str` values (byte order; identical to code-point order on the
ASCII library names involved). -/
def chLeList : List Char → List Char → Bool
  | [], _ => true
  | _ :: _, [] => false
  | a :: as, b :: bs =>
    if a.toNat < b.toNat then true
    else if b.toNat < a.toNat then false
    else chLeList as bs

/-- Lexicographic order on strings, as used by `sort_unstable`. -/
def strLe (a b : String) : Bool := chLeList a.data b.data

/-- The order relation fed to the sort. -/
def strLeRel (a b : String) : Prop := strLe a b = true

instance : DecidableRel strLeRel := fun a b => inferInstanceAs (Decidable (strLe a b = true))

/-- Modelled from the spec: the environment the suggestion engine runs in.
`builtins` embeds `StandardLibrary::all_default_standard_libraries` (§4.3, a
fixed set of named built-in libraries in their fully inflated form, not part
of the excerpt); `robloxEnabled` embeds the `roblox` cargo feature gate; and
`robloxBase` embeds the lazily initialized `StandardLibrary::roblox_base`
description (§4.5, also not part of the excerpt). -/
structure SuggestEnv where
  builtins : List (String × StandardLibrary)
  robloxEnabled : Bool
  robloxBase : StandardLibrary

/-- `possible_standard_libraries` (`possible_std.rs` lines 36-71): collect the
names of the built-in libraries that resolve the path, sort them, and, when
the roblox feature is active and the path matches (by special first segment
or by lookup in the roblox base library), insert `roblox` at the front. The
source asserts that the path is non-empty. -/
def possible_standard_libraries (env : SuggestEnv) (name_path : List String) : List String :=
  let collected :=
    (env.builtins.filter (fun p => (p.2.find_global name_path).isSome)).map Prod.fst
  let sorted := List.insertionSort strLeRel collected
  if env.robloxEnabled then
    let from_roblox_std :=
      match name_path with
      | [] => false
      | first :: _ =>
        if first = "game" || first = "plugin" || first = "script" || first = "workspace" then
          true
        else
          (env.robloxBase.find_global name_path).isSome
    if from_roblox_std then "roblox" :: sorted else sorted
  else
    sorted

/-- Tail rendering for a natural-language list of three or more items: every
item joined by `, ` and the final one by `, and `. -/
def english_tail : List String → String
  | [] => ""
  | [x] => ", and " ++ x
  | x :: rest => ", " ++ x ++ english_tail rest

/-- Modelled from the spec: `text::english_list` (§4.5, not part of the
excerpt) renders a list of names in natural language, as one of the forms
`X`, `X and Y`, or `X, Y, and Z`. -/
def english_list : List String → String
  | [] => ""
  | [x] => x
  | [x, y] => x ++ " and " ++ y
  | x :: rest => x ++ english_tail rest

/-- Modelled from the spec: `text::plural` (§4.5, not part of the excerpt)
picks the singular suffix for a count of exactly one and the plural suffix
otherwise. -/
def plural (count : Nat) (singular many : String) : String :=
  if count = 1 then singular else many

/-- `possible_standard_library_notes` (`possible_std.rs` lines 5-34): no
notes when nothing matched; otherwise a first note naming the dotted path and
the matched libraries (the source format string reads
`was found in the {} standard libar{}` with suffix `y` or `ies`), and, when
no standard library is configured yet, a second note listing one
`std = "<name>"` line per match. -/
def possible_standard_library_notes (env : SuggestEnv) (name_path : List String)
    (standard_library_is_set : Bool) : List String :=
  let possible := possible_standard_libraries env name_path
  if possible.isEmpty then []
  else
    let notes := ["`" ++ String.intercalate "." name_path ++ "` was found in the "
      ++ english_list possible ++ " standard libar"
      ++ plural possible.length "y" "ies"]
    if !standard_library_is_set then
      notes ++ ["you can set the standard library by putting the following inside selene.toml:\n"
        ++ String.intercalate "\n"
          (possible.map (fun library => "std = \"" ++ library ++ "\""))]
    else
      notes

/-! ### Concrete data used by the example-level statements -/

/-- The base globals of the worked merge example in the spec (§8):
`{a: Table{b: Property}, c: Function}`. -/
def exBase : FieldMap :=
  [("a", .Table [("b", .Property none)]), ("c", .Function [] false)]

/-- The overriding globals of the worked merge example in the spec (§8):
`{a: Table{d: Property}, c: Removed, e: Property}`. -/
def exOverride : FieldMap :=
  [("a", .Table [("d", .Property none)]), ("c", .Removed), ("e", .Property none)]

/-- The merged example result viewed as a description, for path lookups. -/
def exMergedStd : StandardLibrary := ⟨none, merge exBase exOverride⟩

/-- A registry holding no library at all. -/
def regEmpty : Registry := fun _ => none

/-- A registry with a single library whose base chain is a self-cycle. -/
def cycReg : Registry := fun n =>
  if n = "cyclic" then some ⟨some "cyclic", []⟩ else none

/-- A registry with an acyclic two-element base chain: `top` is based on
`bot`, which has no base. -/
def chainReg (g1 g2 : FieldMap) : Registry := fun n =>
  if n = "bot" then some ⟨none, g1⟩
  else if n = "top" then some ⟨some "bot", g2⟩
  else none

/-- An inflated description holding the single global `foo`. -/
def stdFoo : StandardLibrary := ⟨none, [("foo", .Property none)]⟩

/-- A suggestion environment with the two built-in names `lua51` and `lua52`,
both resolving `foo`, and the roblox feature disabled. -/
def envTwo : SuggestEnv := ⟨[("lua51", stdFoo), ("lua52", stdFoo)], false, ⟨none, []⟩⟩

/-- A suggestion environment with the single built-in name `lua51`, resolving
`foo`, and the roblox feature disabled. -/
def envOne : SuggestEnv := ⟨[("lua51", stdFoo)], false, ⟨none, []⟩⟩

/-- A suggestion environment whose single built-in name `aaa` sorts before
`roblox`, with the roblox feature enabled. -/
def envRob : SuggestEnv :=
  ⟨[("aaa", ⟨none, [("game", .Property none)]⟩)], true, ⟨none, []⟩⟩

/-! ### Helper lemmas about the map operations and the merge -/

/-- The per-key value of a merged map, as a function of the value the seed
map holds at the key and the value the overriding map holds there. This is
the statement-level companion of `merge`; `mfind_merge` below proves that
`merge` realizes it at every key. -/
def mergeSpec (seedVal : Option Field) : Option Field → Option Field
  | none => seedVal
  | some .Removed => none
  | some (.Table oc) =>
    match seedVal with
    | some (.Table ic) => some (.Table (merge ic oc))
    | _ => some (.Table oc)
  | some v => some v

theorem mfind_merase_self (m : FieldMap) (k : String) : mfind (merase m k) k = none := by
  induction m with
  | nil => rfl
  | cons p rest ih =>
    obtain ⟨k2, v⟩ := p
    by_cases h : k2 = k
    · simpa [merase, h] using ih
    · simpa [merase, mfind, h] using ih

theorem mfind_merase_ne (m : FieldMap) (k key : String) (h : key ≠ k) :
    mfind (merase m k) key = mfind m key := by
  have hk : ¬ (k = key) := fun hc => h hc.symm
  induction m with
  | nil => rfl
  | cons p rest ih =>
    obtain ⟨k2, v⟩ := p
    by_cases h2 : k2 = k
    · subst h2
      simpa [merase, mfind, hk] using ih
    · by_cases h4 : k2 = key
      · subst h4
        simp [merase, mfind, h2]
      · simpa [merase, mfind, h2, h4] using ih

theorem mfind_minsert_self (m : FieldMap) (k : String) (v : Field) :
    mfind (minsert m k v) k = some v := by
  simp [minsert, mfind]

theorem mfind_minsert_ne (m : FieldMap) (k key : String) (v : Field) (h : key ≠ k) :
    mfind (minsert m k v) key = mfind m key := by
  have h2 : k ≠ key := fun hc => h hc.symm
  simp [minsert, mfind, h2, mfind_merase_ne m k key h]

theorem mfind_eq_none (m : FieldMap) (key : String) (h : key ∉ m.map Prod.fst) :
    mfind m key = none := by
  induction m with
  | nil => rfl
  | cons p rest ih =>
    obtain ⟨k2, v⟩ := p
    simp only [List.map_cons, List.mem_cons] at h
    push_neg at h
    have h2 : k2 ≠ key := fun hc => h.1 hc.symm
    simpa [mfind, h2] using ih h.2

theorem mfind_mergeOne_self (into : FieldMap) (k : String) (v : Field) :
    mfind (mergeOne into k v) k = mergeSpec (mfind into k) (some v) := by
  cases v with
  | Function args method => simp [mergeOne, mergeSpec, mfind_minsert_self]
  | Property w => simp [mergeOne, mergeSpec, mfind_minsert_self]
  | Removed => simp [mergeOne, mergeSpec, mfind_merase_self]
  | Table oc =>
    cases hfind : mfind into k with
    | none => simp [mergeOne, hfind, mergeSpec, mfind_minsert_self]
    | some f => cases f <;> simp [mergeOne, hfind, mergeSpec, mfind_minsert_self]

theorem mfind_mergeOne_ne (into : FieldMap) (k : String) (v : Field) (key : String)
    (h : key ≠ k) : mfind (mergeOne into k v) key = mfind into key := by
  cases v with
  | Function args method => simp [mergeOne, mfind_minsert_ne into k key _ h]
  | Property w => simp [mergeOne, mfind_minsert_ne into k key _ h]
  | Removed => simp [mergeOne, mfind_merase_ne into k key h]
  | Table oc =>
    cases hfind : mfind into k with
    | none => simp [mergeOne, hfind, mfind_minsert_ne into k key _ h]
    | some f => cases f <;> simp [mergeOne, hfind, mfind_minsert_ne into k key _ h]

theorem mfind_merge (other : FieldMap) : ∀ (into : FieldMap) (key : String),
    (other.map Prod.fst).Nodup →
    mfind (merge into other) key = mergeSpec (mfind into key) (mfind other key) := by
  induction other with
  | nil =>
    intro into key _
    simp [merge, mfind, mergeSpec]
  | cons p rest ih =>
    obtain ⟨k, v⟩ := p
    intro into key h
    simp only [List.map_cons, List.nodup_cons] at h
    obtain ⟨hk, hrest⟩ := h
    have hstep : merge into ((k, v) :: rest) = merge (mergeOne into k v) rest := by
      simp [merge]
    rw [hstep, ih (mergeOne into k v) key hrest]
    by_cases hkey : k = key
    · subst hkey
      rw [mfind_eq_none rest k hk]
      simp only [mergeSpec, mfind, if_pos rfl]
      exact mfind_mergeOne_self into k v
    · have hkey2 : key ≠ k := fun hc => hkey hc.symm
      rw [mfind_mergeOne_ne into k v key hkey2]
      simp [mfind, hkey]

/-- Faithfulness of the inlining performed in `inflate`: with one unit of
fuel peeled off, inflating a library based on `b` is exactly a
`from_name` resolution of `b` followed by the panic on a missing name
(`ok none`), or the seed-and-merge on success. -/
theorem inflate_succ_eq_from_name (reg : Registry) (fuel : Nat) (g : FieldMap) (b : String) :
    inflate reg (fuel + 1) ⟨some b, g⟩ =
      match from_name reg fuel b with
      | .ok none => .panic b
      | .ok (some base) => .ok ⟨some b, merge base.globals g⟩
      | .panic m => .panic m
      | .outOfFuel => .outOfFuel := by
  cases hreg : reg b with
  | none => simp [inflate, from_name, hreg]
  | some raw =>
    cases hinf : inflate reg fuel raw with
    | ok s => simp [inflate, from_name, hreg, hinf]
    | panic m => simp [inflate, from_name, hreg, hinf]
    | outOfFuel => simp [inflate, from_name, hreg, hinf]

/-- When the base resolves, `inflate` seeds with the resolved base globals
and merges the own globals onto the seed, retaining the `base` field. -/
theorem inflate_base_some (reg : Registry) (fuel : Nat) (g : FieldMap) (b : String)
    (B : StandardLibrary) (h : from_name reg fuel b = .ok (some B)) :
    inflate reg (fuel + 1) ⟨some b, g⟩ = .ok ⟨some b, merge B.globals g⟩ := by
  rw [inflate_succ_eq_from_name, h]

/-- Merging never leaves `Removed` at the top level of the result, provided
the seed map holds no top-level `Removed`. -/
theorem merge_top_no_removed (into other : FieldMap) (key : String)
    (hnd : (other.map Prod.fst).Nodup)
    (hseed : ∀ k2, mfind into k2 ≠ some .Removed) :
    mfind (merge into other) key ≠ some .Removed := by
  rw [mfind_merge other into key hnd]
  cases hover : mfind other key with
  | none => simpa [mergeSpec] using hseed key
  | some f =>
    cases f with
    | Function args method => simp [mergeSpec]
    | Property w => simp [mergeSpec]
    | Removed => simp [mergeSpec]
    | Table oc =>
      cases hfind : mfind into key with
      | none => simp [mergeSpec, hfind]
      | some f2 => cases f2 <;> simp [mergeSpec, hfind]

/-! ### Claims -/

/-- Claim C1: for every standard library with `base = Some(name)`, `inflate`
seeds the result with the resolved base fully inflated globals and merges the
own globals onto it key by key: a `Removed` overriding value deletes the key
from the seed without recursing or re-inserting; when both the seed entry and
the overriding entry are `Table`, the child maps are deep-merged recursively
and the result stays a `Table`; in every other conflict the overriding value
fully replaces the seed entry; keys present only in the seed are kept. The
worked example merges to exactly `{a: Table{b: Property, d: Property},
e: Property}` (the literal association list below reads, as a key-value map,
exactly that: key `e` a Property, key `a` a Table with children `d` and `b`,
and no other key — key order in an association list embedding a hash map
carries no meaning). -/
theorem claim_C1 :
    (∀ (reg : Registry) (fuel : Nat) (g : FieldMap) (b : String) (B : StandardLibrary),
      from_name reg fuel b = .ok (some B) →
      inflate reg (fuel + 1) ⟨some b, g⟩ = .ok ⟨some b, merge B.globals g⟩)
    ∧ (∀ (into other : FieldMap) (key : String),
      (other.map Prod.fst).Nodup → mfind other key = some .Removed →
      mfind (merge into other) key = none)
    ∧ (∀ (into other : FieldMap) (key : String) (ic oc : FieldMap),
      (other.map Prod.fst).Nodup → mfind other key = some (.Table oc) →
      mfind into key = some (.Table ic) →
      mfind (merge into other) key = some (.Table (merge ic oc)))
    ∧ (∀ (into other : FieldMap) (key : String) (v : Field),
      (other.map Prod.fst).Nodup → mfind other key = some v → v ≠ .Removed →
      (∀ oc : FieldMap, v = .Table oc → ∀ ic : FieldMap, mfind into key ≠ some (.Table ic)) →
      mfind (merge into other) key = some v)
    ∧ (∀ (into other : FieldMap) (key : String),
      (other.map Prod.fst).Nodup → mfind other key = none →
      mfind (merge into other) key = mfind into key)
    ∧ merge exBase exOverride
      = [("e", .Property none), ("a", .Table [("d", .Property none), ("b", .Property none)])]
    ∧ mfind (merge exBase exOverride) "a"
      = some (.Table [("d", .Property none), ("b", .Property none)])
    ∧ mfind (merge exBase exOverride) "c" = none
    ∧ mfind (merge exBase exOverride) "e" = some (.Property none)
    ∧ (merge exBase exOverride).map Prod.fst = ["e", "a"] := by
  refine ⟨?_, ?_, ?_, ?_, ?_, rfl, rfl, rfl, rfl, rfl⟩
  · intro reg fuel g b B h
    exact inflate_base_some reg fuel g b B h
  · intro into other key hnd hover
    rw [mfind_merge other into key hnd, hover]
    simp [mergeSpec]
  · intro into other key ic oc hnd hover hinto
    rw [mfind_merge other into key hnd, hover]
    simp [mergeSpec, hinto]
  · intro into other key v hnd hover hne hrepl
    rw [mfind_merge other into key hnd, hover]
    cases v with
    | Function args method => simp [mergeSpec]
    | Property w => simp [mergeSpec]
    | Removed => exact absurd rfl hne
    | Table oc =>
      cases hfind : mfind into key with
      | none => simp [mergeSpec, hfind]
      | some f =>
        cases f with
        | Function args method => simp [mergeSpec, hfind]
        | Property w => simp [mergeSpec, hfind]
        | Removed => simp [mergeSpec, hfind]
        | Table ic => exact absurd hfind (hrepl oc rfl ic)
  · intro into other key hnd hover
    rw [mfind_merge other into key hnd, hover]
    simp [mergeSpec]

/-- Witness for claim C1 at concrete inputs: the deletion rule, the deep
merge rule and the frame rule evaluated on the worked example. -/
theorem claim_C1_witness :
    mfind (merge exBase exOverride) "c" = none
    ∧ mfind (merge exBase exOverride) "a"
      = some (.Table (merge [("b", .Property none)] [("d", .Property none)]))
    ∧ inflate (chainReg exBase []) 1 ⟨some "bot", exOverride⟩
        = .ok ⟨some "bot", merge exBase exOverride⟩ := by
  refine ⟨?_, ?_, ?_⟩
  · exact claim_C1.2.1 exBase exOverride "c" (by decide) rfl
  · exact claim_C1.2.2.1 exBase exOverride "a"
      [("b", .Property none)] [("d", .Property none)] (by decide) rfl rfl
  · exact claim_C1.1 (chainReg exBase []) 0 exOverride "bot" ⟨none, exBase⟩ rfl

/-- Counterexample to claim C2: `Removed` can survive `inflate`. First, a
library with no base is not merged at all, so a top-level `Removed` in its
raw globals is still present after `inflate`. Second, even with a base, a
`Removed` nested inside an overriding `Table` that is inserted wholesale
(because the seed has no `Table` at that key) survives into the result. -/
theorem claim_C2_counterexample :
    (inflate regEmpty 3 ⟨none, [("x", Field.Removed)]⟩ = .ok ⟨none, [("x", Field.Removed)]⟩
      ∧ mapHasRemoved [("x", Field.Removed)] = true)
    ∧ (from_name (chainReg [] [("x", .Table [("y", Field.Removed)])]) 1 "top"
        = .ok (some ⟨some "bot", [("x", .Table [("y", Field.Removed)])]⟩)
      ∧ mapHasRemoved [("x", .Table [("y", Field.Removed)])] = true) := by
  exact ⟨⟨rfl, rfl⟩, ⟨rfl, rfl⟩⟩

/-- Claim C2 (amended): the merge consumes `Removed` only at the top level of
the overriding map it is currently processing. What holds is: the top level
of a merged map never contains `Removed`, provided the seed map holds no
top-level `Removed`; consequently, for a library whose base resolves to an
inflated description with a `Removed`-free top level, the top level of the
inflated globals is `Removed`-free. `Removed` nested inside an overriding
`Table` inserted wholesale, and `Removed` anywhere in a library with no base,
survive `inflate` (see the counterexample). -/
theorem claim_C2 :
    (∀ (into other : FieldMap) (key : String),
      (other.map Prod.fst).Nodup →
      (∀ k2, mfind into k2 ≠ some .Removed) →
      mfind (merge into other) key ≠ some .Removed)
    ∧ (∀ (reg : Registry) (fuel : Nat) (g : FieldMap) (b : String)
        (B out : StandardLibrary) (key : String),
      from_name reg fuel b = .ok (some B) →
      (∀ k2, mfind B.globals k2 ≠ some .Removed) →
      (g.map Prod.fst).Nodup →
      inflate reg (fuel + 1) ⟨some b, g⟩ = .ok out →
      mfind out.globals key ≠ some .Removed) := by
  refine ⟨merge_top_no_removed, ?_⟩
  intro reg fuel g b B out key hname hclean hnd hinf
  rw [inflate_base_some reg fuel g b B hname] at hinf
  cases hinf
  exact merge_top_no_removed B.globals g key hnd hclean

/-- Witness for claim C2 at concrete inputs: merging the worked example
override onto the worked example base leaves no top-level `Removed` at key
`c`, the key the override removes. -/
theorem claim_C2_witness :
    mfind (merge exBase exOverride) "c" ≠ some Field.Removed :=
  claim_C2.1 exBase exOverride "c" (by decide)
    (by
      intro k2
      simp only [exBase, mfind]
      split_ifs <;> simp)

/-- Counterexample to claim C3: `inflate` panics on an unknown base no matter
how the library arose; there is no recoverable-error return path in
`fn inflate(&mut self)` at all (its return type carries no error channel), so
an externally supplied custom description with an unknown base aborts the
process exactly like a bundled one. -/
theorem claim_C3_counterexample :
    inflate regEmpty 9 ⟨some "nonexistent", [("g", .Property none)]⟩
      = .panic "nonexistent" := rfl

/-- Claim C3 (amended): for every standard library whose base names a library
unknown to the registry, `inflate` aborts with the panic naming the missing
base — for externally supplied custom descriptions just as for bundled ones;
no recoverable configuration error is reported to the caller. -/
theorem claim_C3 :
    ∀ (reg : Registry) (fuel : Nat) (g : FieldMap) (b : String),
      reg b = none → inflate reg fuel ⟨some b, g⟩ = .panic b := by
  intro reg fuel g b h
  simp [inflate, h]

/-- Witness for claim C3 at a concrete input: a custom library based on the
unknown name `luau` panics. -/
theorem claim_C3_witness : inflate regEmpty 4 ⟨some "luau", []⟩ = .panic "luau" :=
  claim_C3 regEmpty 4 [] "luau" rfl

/-- Claim C10: for every standard library whose base is `None`, `inflate` is
a no-op — the base field and the entire globals map are returned exactly
unchanged, for any registry and any fuel — so no merging happens, and a
`Removed` sentinel contained in a baseless raw definition survives into the
finalized description. -/
theorem claim_C10 :
    (∀ (reg : Registry) (fuel : Nat) (g : FieldMap), inflate reg fuel ⟨none, g⟩ = .ok ⟨none, g⟩)
    ∧ inflate regEmpty 0 ⟨none, [("x", Field.Removed)]⟩ = .ok ⟨none, [("x", Field.Removed)]⟩
    ∧ mapHasRemoved [("x", Field.Removed)] = true := by
  refine ⟨?_, rfl, rfl⟩
  intro reg fuel g
  simp [inflate]

/-- Claim C4: `find_global` descends from the top-level globals map; for each
segment except the last the current map must contain the segment with a
`Table` field, whose children it descends into; a missing or non-`Table`
intermediate segment yields not-found; the final segment is looked up
directly and whatever field is there is returned. On the merged example,
`["a","b"]` yields the original Property, `["c"]` is not found, `["a","d"]`
yields the added Property, and `["a","b","x"]` is not found. -/
theorem claim_C4 :
    (∀ (std : StandardLibrary) (names : List String),
      std.find_global names = findIn std.globals names)
    ∧ (∀ (m : FieldMap) (last : String), findIn m [last] = mfind m last)
    ∧ (∀ (m : FieldMap) (s r : String) (rest : List String),
      mfind m s = none → findIn m (s :: r :: rest) = none)
    ∧ (∀ (m : FieldMap) (s r : String) (rest : List String) (v : Field),
      mfind m s = some v → (∀ c : FieldMap, v ≠ .Table c) →
      findIn m (s :: r :: rest) = none)
    ∧ (∀ (m : FieldMap) (s r : String) (rest : List String) (c : FieldMap),
      mfind m s = some (.Table c) → findIn m (s :: r :: rest) = findIn c (r :: rest))
    ∧ exMergedStd.find_global ["a", "b"] = some (.Property none)
    ∧ exMergedStd.find_global ["c"] = none
    ∧ exMergedStd.find_global ["a", "d"] = some (.Property none)
    ∧ exMergedStd.find_global ["a", "b", "x"] = none := by
  refine ⟨fun _ _ => rfl, fun _ _ => rfl, ?_, ?_, ?_, rfl, rfl, rfl, rfl⟩
  · intro m s r rest h
    simp [findIn, h]
  · intro m s r rest v h hnt
    cases v with
    | Function args method => simp [findIn, h]
    | Property w => simp [findIn, h]
    | Table c => exact absurd rfl (hnt c)
    | Removed => simp [findIn, h]
  · intro m s r rest c h
    simp [findIn, h]

/-- Witness for claim C4 at concrete inputs: a missing intermediate segment
and a non-`Table` intermediate segment both yield not-found on the merged
example map. -/
theorem claim_C4_witness :
    findIn (merge exBase exOverride) ["q", "z"] = none
    ∧ findIn (merge exBase exOverride) ["e", "z"] = none := by
  constructor
  · exact claim_C4.2.2.1 (merge exBase exOverride) "q" "z" [] rfl
  · exact claim_C4.2.2.2.1 (merge exBase exOverride) "e" "z" [] (.Property none) rfl
      (fun c h => Field.noConfusion h)

/-- On the cyclic registry, inflating the self-based library exhausts every
fuel bound: the recursion never completes. -/
theorem inflate_cyc (fuel : Nat) :
    inflate cycReg fuel ⟨some "cyclic", []⟩ = .outOfFuel := by
  induction fuel with
  | zero => rfl
  | succ n ih =>
    rw [inflate_succ_eq_from_name cycReg n [] "cyclic"]
    simp [from_name, cycReg, ih]

/-- On the cyclic registry, `from_name` exhausts every fuel bound. -/
theorem from_name_cyc (fuel : Nat) : from_name cycReg fuel "cyclic" = .outOfFuel := by
  simp [from_name, cycReg, inflate_cyc fuel]

/-- On the acyclic two-element chain registry, the bottom library (no base)
resolves immediately with any fuel. -/
theorem chain_bot (g1 g2 : FieldMap) (fuel : Nat) :
    from_name (chainReg g1 g2) fuel "bot" = .ok (some ⟨none, g1⟩) := by
  simp [from_name, chainReg, inflate]

/-- On the acyclic two-element chain registry, the top library resolves to
the merge of the bottom globals with its own. -/
theorem chain_top (g1 g2 : FieldMap) (fuel : Nat) :
    from_name (chainReg g1 g2) (fuel + 1) "top" = .ok (some ⟨some "bot", merge g1 g2⟩) := by
  have hb : chainReg g1 g2 "top" = some ⟨some "bot", g2⟩ := by simp [chainReg]
  simp only [from_name, hb]
  rw [inflate_succ_eq_from_name (chainReg g1 g2) fuel g2 "bot", chain_bot g1 g2 fuel]

/-- Counterexample to claim C6: on a registry whose single library names
itself as base, resolution neither succeeds nor fails with an explicit error
for any fuel bound — the recursion simply never completes. No set of
in-progress names is tracked anywhere in `inflate` or `from_name`. -/
theorem claim_C6_counterexample :
    (¬ ∃ (fuel : Nat) (s : Option StandardLibrary), from_name cycReg fuel "cyclic" = .ok s)
    ∧ (¬ ∃ (fuel : Nat) (m : String), from_name cycReg fuel "cyclic" = .panic m) := by
  constructor
  · rintro ⟨fuel, s, h⟩
    rw [from_name_cyc fuel] at h
    simp at h
  · rintro ⟨fuel, m, h⟩
    rw [from_name_cyc fuel] at h
    simp at h

/-- Claim C6 (amended): the code tracks no set of in-progress resolutions and
detects no cycle; on a base chain in which a library reappears as its own
base, resolution never terminates (every fuel bound is exhausted), rather
than failing with a descriptive error. On an acyclic chain resolution
terminates: the baseless bottom library resolves with any fuel, and the top
library resolves to the merged result with any positive fuel. -/
theorem claim_C6 :
    (∀ fuel : Nat, from_name cycReg fuel "cyclic" = .outOfFuel)
    ∧ (∀ (g1 g2 : FieldMap) (fuel : Nat),
        from_name (chainReg g1 g2) fuel "bot" = .ok (some ⟨none, g1⟩))
    ∧ (∀ (g1 g2 : FieldMap) (fuel : Nat),
        from_name (chainReg g1 g2) (fuel + 1) "top" = .ok (some ⟨some "bot", merge g1 g2⟩)) :=
  ⟨from_name_cyc, chain_bot, chain_top⟩

/-- Claim C7: interpreting a raw field entry fails when the property marker
is set together with a function indication (an args list or the method
marker); fails when none of property marker, function indication, or nested
children are present; an entry carrying only nested children parses as
`Table`; and the removed marker takes priority over everything else,
yielding `Removed`. -/
theorem claim_C7 :
    (∀ raw : FieldSerde, raw.removed = true → interpretField raw = .ok .Removed)
    ∧ (∀ raw : FieldSerde, raw.removed = false → raw.property = true →
        (raw.args.isSome || raw.method) = true →
        interpretField raw = .error ("field is both a property and a function"))
    ∧ (∀ raw : FieldSerde, raw.removed = false → raw.property = false →
        raw.args = none → raw.method = false → raw.children = [] →
        interpretField raw = .error ("cannot determine what kind of field this is"))
    ∧ (∀ raw : FieldSerde, raw.removed = false → raw.property = false →
        raw.args = none → raw.method = false → raw.children ≠ [] →
        interpretField raw = .ok (.Table raw.children)) := by
  refine ⟨?_, ?_, ?_, ?_⟩
  · intro raw h
    simp [interpretField, h]
  · intro raw h1 h2 h3
    simp [interpretField, h1, h2, h3]
  · intro raw h1 h2 h3 h4 h5
    simp [interpretField, h1, h2, h3, h4, h5]
  · intro raw h1 h2 h3 h4 h5
    have h6 : raw.children.isEmpty = false := by
      cases hc : raw.children with
      | nil => exact absurd hc h5
      | cons hd tl => rfl
    simp [interpretField, h1, h2, h3, h4, h6]

/-- Witness for claim C7 at concrete inputs: a removed entry, an ambiguous
property-and-function entry, an undeterminable entry, and a children-only
entry. -/
theorem claim_C7_witness :
    interpretField ⟨false, false, true, none, none, []⟩ = .ok .Removed
    ∧ interpretField ⟨true, false, false, none, some [], []⟩
      = .error ("field is both a property and a function")
    ∧ interpretField ⟨false, false, false, none, none, []⟩
      = .error ("cannot determine what kind of field this is")
    ∧ interpretField ⟨false, false, false, none, none, [("k", .Property none)]⟩
      = .ok (.Table [("k", .Property none)]) := by
  refine ⟨?_, ?_, ?_, ?_⟩
  · exact claim_C7.1 ⟨false, false, true, none, none, []⟩ rfl
  · exact claim_C7.2.1 ⟨true, false, false, none, some [], []⟩ rfl rfl rfl
  · exact claim_C7.2.2.1 ⟨false, false, false, none, none, []⟩ rfl rfl rfl rfl rfl
  · exact claim_C7.2.2.2 ⟨false, false, false, none, none, [("k", .Property none)]⟩
      rfl rfl rfl rfl (by simp)

theorem slookup_filter_ne (m : List (String × String)) (k key : String) (h : key ≠ k) :
    slookup (m.filter (fun p => p.1 ≠ k)) key = slookup m key := by
  induction m with
  | nil => rfl
  | cons p rest ih =>
    obtain ⟨k2, v2⟩ := p
    by_cases h2 : k2 = k
    · subst h2
      have h3 : ¬ (k2 = key) := fun hc => h (hc ▸ rfl)
      simpa [List.filter_cons, slookup, h3] using ih
    · by_cases h4 : k2 = key
      · subst h4
        simp [List.filter_cons, slookup, h2]
      · simpa [List.filter_cons, slookup, h2, h4] using ih

theorem slookup_sinsert_self (m : List (String × String)) (k v : String) :
    slookup (sinsert m k v) k = some v := by
  simp [sinsert, slookup]

theorem slookup_sinsert_ne (m : List (String × String)) (k key v : String) (h : key ≠ k) :
    slookup (sinsert m k v) key = slookup m key := by
  have h2 : ¬ (k = key) := fun hc => h hc.symm
  simp only [sinsert, slookup, if_neg h2]
  exact slookup_filter_ne m k key h

theorem slookup_build_not_mem (es : List (String × String)) :
    ∀ (init : List (String × String)) (key : String), key ∉ es.map Prod.fst →
    slookup (es.foldl (fun m kv => sinsert m kv.1 kv.2) init) key = slookup init key := by
  induction es with
  | nil => intro init key _; rfl
  | cons p rest ih =>
    obtain ⟨k2, v2⟩ := p
    intro init key h
    simp only [List.map_cons, List.mem_cons] at h
    push_neg at h
    rw [List.foldl_cons]
    rw [ih (sinsert init k2 v2) key h.2]
    exact slookup_sinsert_ne init k2 key v2 h.1

theorem slookup_build_mem (es : List (String × String)) :
    ∀ (init : List (String × String)) (key d : String), (es.map Prod.fst).Nodup →
    (key, d) ∈ es →
    slookup (es.foldl (fun m kv => sinsert m kv.1 kv.2) init) key = some d := by
  induction es with
  | nil => intro init key d _ h; exact absurd h (List.not_mem_nil _)
  | cons p rest ih =>
    obtain ⟨k2, v2⟩ := p
    intro init key d hnd hmem
    simp only [List.map_cons, List.nodup_cons] at hnd
    rw [List.foldl_cons]
    rcases List.mem_cons.mp hmem with heq | hrest
    · obtain ⟨hk, hv⟩ := Prod.mk.injEq .. ▸ heq
      subst hk
      subst hv
      rw [slookup_build_not_mem rest (sinsert init key d) key hnd.1]
      exact slookup_sinsert_self init key d
    · exact ih (sinsert init k2 v2) key d hnd.2 hrest

/-- Claim C8: parsing an `ArgumentType` is decided by shape — a string is
matched case-sensitively against the fixed vocabulary with `...` mapping to
`Vararg` and any other string rejected by an error naming it; a sequence of
strings yields `Constant` preserving order; a mapping yields `Display` of its
`display` entry, and a mapping lacking that key is an error. -/
theorem claim_C8 :
    deserialize_argument_type (.str "any") = .ok .Any
    ∧ deserialize_argument_type (.str "bool") = .ok .Bool
    ∧ deserialize_argument_type (.str "function") = .ok .Function
    ∧ deserialize_argument_type (.str "nil") = .ok .Nil
    ∧ deserialize_argument_type (.str "number") = .ok .Number
    ∧ deserialize_argument_type (.str "string") = .ok .String
    ∧ deserialize_argument_type (.str "table") = .ok .Table
    ∧ deserialize_argument_type (.str "...") = .ok .Vararg
    ∧ (∀ s : String, s ≠ "any" → s ≠ "bool" → s ≠ "function" → s ≠ "nil" → s ≠ "number" →
        s ≠ "string" → s ≠ "table" → s ≠ "..." →
        deserialize_argument_type (.str s) = .error ("unknown type " ++ s))
    ∧ (∀ vs : List String, deserialize_argument_type (.seq vs) = .ok (.Constant vs))
    ∧ (∀ (es : List (String × String)) (d : String),
        (es.map Prod.fst).Nodup → ("display", d) ∈ es →
        deserialize_argument_type (.map es) = .ok (.Display d))
    ∧ (∀ es : List (String × String), "display" ∉ es.map Prod.fst →
        deserialize_argument_type (.map es)
          = .error ("map value must have a `display` property"))
    ∧ deserialize_argument_type (.str "frobnicate") = .error ("unknown type frobnicate")
    ∧ deserialize_argument_type (.seq ["A", "B"]) = .ok (.Constant ["A", "B"])
    ∧ deserialize_argument_type (.map [("display", "custom")]) = .ok (.Display "custom") := by
  refine ⟨rfl, rfl, rfl, rfl, rfl, rfl, rfl, rfl, ?_, fun _ => rfl, ?_, ?_, rfl, rfl, rfl⟩
  · intro s h1 h2 h3 h4 h5 h6 h7 h8
    simp [deserialize_argument_type, visit_str, h1, h2, h3, h4, h5, h6, h7, h8]
  · intro es d hnd hmem
    simp only [deserialize_argument_type, visit_map]
    rw [slookup_build_mem es [] "display" d hnd hmem]
  · intro es h
    simp only [deserialize_argument_type, visit_map]
    rw [slookup_build_not_mem es [] "display" h]
    rfl

/-- Witness for claim C8 at concrete inputs: the unknown string of the spec
example, a two-entry mapping holding `display`, and a mapping lacking it. -/
theorem claim_C8_witness :
    deserialize_argument_type (.str "frobnicate2") = .error ("unknown type frobnicate2")
    ∧ deserialize_argument_type (.map [("display", "custom"), ("other", "x")])
      = .ok (.Display "custom")
    ∧ deserialize_argument_type (.map [("other", "x")])
      = .error ("map value must have a `display` property") := by
  refine ⟨?_, ?_, ?_⟩
  · exact claim_C8.2.2.2.2.2.2.2.2.1 "frobnicate2" (by decide) (by decide) (by decide)
      (by decide) (by decide) (by decide) (by decide) (by decide)
  · exact claim_C8.2.2.2.2.2.2.2.2.2.2.1 [("display", "custom"), ("other", "x")] "custom"
      (by decide) (by decide)
  · exact claim_C8.2.2.2.2.2.2.2.2.2.2.2.1 [("other", "x")] (by decide)

theorem chLeList_cons_iff (a b : Char) (as bs : List Char) :
    chLeList (a :: as) (b :: bs) = true ↔
      a.toNat < b.toNat ∨ (a.toNat = b.toNat ∧ chLeList as bs = true) := by
  simp only [chLeList]
  split_ifs with h1 h2
  · simp [h1]
  · simp only [Bool.false_eq_true, false_iff]
    rintro (h | ⟨h, _⟩) <;> omega
  · have h3 : a.toNat = b.toNat := by omega
    simp [h3]

theorem chLeList_total (as : List Char) : ∀ bs : List Char,
    chLeList as bs = true ∨ chLeList bs as = true := by
  induction as with
  | nil => intro bs; left; rfl
  | cons a as ih =>
    intro bs
    cases bs with
    | nil => right; rfl
    | cons b bs =>
      rcases Nat.lt_trichotomy a.toNat b.toNat with h | h | h
      · left
        rw [chLeList_cons_iff]
        exact Or.inl h
      · rcases ih bs with h2 | h2
        · left
          rw [chLeList_cons_iff]
          exact Or.inr ⟨h, h2⟩
        · right
          rw [chLeList_cons_iff]
          exact Or.inr ⟨h.symm, h2⟩
      · right
        rw [chLeList_cons_iff]
        exact Or.inl h

theorem chLeList_trans (as : List Char) : ∀ bs cs : List Char,
    chLeList as bs = true → chLeList bs cs = true → chLeList as cs = true := by
  induction as with
  | nil => intro bs cs _ _; rfl
  | cons a as ih =>
    intro bs cs h1 h2
    cases bs with
    | nil => simp [chLeList] at h1
    | cons b bs =>
      cases cs with
      | nil => simp [chLeList] at h2
      | cons c cs =>
        rw [chLeList_cons_iff] at h1 h2 ⊢
        rcases h1 with h1 | ⟨h1e, h1r⟩
        · rcases h2 with h2 | ⟨h2e, h2r⟩
          · exact Or.inl (by omega)
          · exact Or.inl (by omega)
        · rcases h2 with h2 | ⟨h2e, h2r⟩
          · exact Or.inl (by omega)
          · exact Or.inr ⟨by omega, ih bs cs h1r h2r⟩

instance : IsTotal String strLeRel := ⟨fun a b => chLeList_total a.data b.data⟩

instance : IsTrans String strLeRel := ⟨fun a b c => chLeList_trans a.data b.data c.data⟩

/-- Claim C5 (a code bug): the first note does name the dotted path and list
the matched library names in natural language with the count-correct suffix,
but the noun itself is misspelled in the source format string, which reads
`standard libar{}` filled with `y` or `ies` — producing `standard libary` and
`standard libaries` where the claim (and the evident intent) says
`standard library` and `standard libraries`. -/
theorem claim_C5 :
    possible_standard_library_notes envTwo ["foo"] true
      = ["`foo` was found in the lua51 and lua52 standard libaries"]
    ∧ possible_standard_library_notes envOne ["foo"] true
      = ["`foo` was found in the lua51 standard libary"]
    ∧ ("`foo` was found in the lua51 and lua52 standard libaries"
        ≠ "`foo` was found in the lua51 and lua52 standard libraries")
    ∧ ("`foo` was found in the lua51 standard libary"
        ≠ "`foo` was found in the lua51 standard library") := by
  refine ⟨by decide, by decide, by decide, by decide⟩

/-- Claim C9: with the roblox feature off, the match list holds exactly the
built-in names whose description resolves the path, sorted lexicographically;
with the feature on, when the path matches the roblox environment (special
first segment or successful lookup in the roblox base library), `roblox` is
inserted at the very front of that sorted list — even when, as in the
concrete conjunct, it would sort after a built-in name alphabetically. -/
theorem claim_C9 :
    (∀ (env : SuggestEnv) (path : List String) (n : String),
      env.robloxEnabled = false →
      (n ∈ possible_standard_libraries env path ↔
        ∃ std : StandardLibrary, (n, std) ∈ env.builtins ∧ (std.find_global path).isSome = true))
    ∧ (∀ (env : SuggestEnv) (path : List String),
      env.robloxEnabled = false →
      List.Sorted strLeRel (possible_standard_libraries env path))
    ∧ (∀ (env : SuggestEnv) (first : String) (rest : List String),
      env.robloxEnabled = true →
      (first = "game" ∨ first = "plugin" ∨ first = "script" ∨ first = "workspace"
        ∨ (env.robloxBase.find_global (first :: rest)).isSome = true) →
      possible_standard_libraries env (first :: rest)
        = "roblox" ::
          possible_standard_libraries ⟨env.builtins, false, env.robloxBase⟩ (first :: rest))
    ∧ possible_standard_libraries envRob ["game"] = ["roblox", "aaa"]
    ∧ strLe "roblox" "aaa" = false := by
  refine ⟨?_, ?_, ?_, rfl, rfl⟩
  · intro env path n h
    simp only [possible_standard_libraries, h, Bool.false_eq_true, if_false]
    rw [(List.perm_insertionSort strLeRel _).mem_iff]
    simp only [List.mem_map, List.mem_filter]
    constructor
    · rintro ⟨⟨pn, pstd⟩, ⟨hmem, hsome⟩, rfl⟩
      exact ⟨pstd, hmem, hsome⟩
    · rintro ⟨std, hmem, hsome⟩
      exact ⟨(n, std), ⟨hmem, hsome⟩, rfl⟩
  · intro env path h
    simp only [possible_standard_libraries, h, Bool.false_eq_true, if_false]
    exact List.sorted_insertionSort strLeRel _
  · intro env first rest h hm
    have hfr : (if first = "game" || first = "plugin" || first = "script"
          || first = "workspace" then
        true
      else (env.robloxBase.find_global (first :: rest)).isSome) = true := by
      rcases hm with h1 | h1 | h1 | h1 | h1
      · simp [h1]
      · simp [h1]
      · simp [h1]
      · simp [h1]
      · by_cases hc : (first = "game" || first = "plugin" || first = "script"
            || first = "workspace") = true
        · simp [hc]
        · simp only [hc, if_false, Bool.if_false_left]
          simp only [Bool.not_eq_true] at hc
          simp [hc, h1]
    simp only [possible_standard_libraries, h, if_true]
    simp only [hfr]
    simp

/-- Witness for claim C9 at a concrete input: in the roblox-enabled
environment, the special first segment `game` puts `roblox` at the front of
the sorted built-in matches. -/
theorem claim_C9_witness :
    possible_standard_libraries envRob ["game"]
      = "roblox" ::
        possible_standard_libraries ⟨envRob.builtins, false, envRob.robloxBase⟩ ["game"] :=
  claim_C9.2.2.1 envRob "game" [] rfl (Or.inl rfl)

end Selene
